import Mathlib

/-!
Verification of the rct event-reactor core against its source.

Shallow embedding of the code in `src/rct/Serializer.h`, `src/rct/SharedMemory.cpp`
and `src/rct/EventLoop.h`.  Pure C++ member functions become Lean functions on
explicit state records; fallible OS primitives are modelled with explicit
outcome oracles; machine integers are `Nat`/`Int` with explicit reduction
modulo `2 ^ 32` where the C++ type is `uint32_t`.
-/

namespace Rct

/-! ## Serializer (src/rct/Serializer.h, lines 15-113)

`Serializer::Buffer` is an abstract sink with `write(data, len) -> bool` and
`pos()`.  We model an arbitrary buffer implementation by its byte contents, a
count of write calls received so far, and a predicate saying whether the n-th
write call on the buffer succeeds (covering both the always-succeeding
`StringBuffer` and the possibly-failing `FileBuffer`). -/

structure Buffer where
  contents : List Nat
  calls : Nat
  writeOk : Nat → Bool

/-- One `write` call on the underlying buffer: on success the bytes are
appended to the sink, on failure nothing is appended; either way the buffer
has received one more call. -/
def Buffer.write (b : Buffer) (data : List Nat) : Bool × Buffer :=
  if b.writeOk b.calls then
    (true, { b with contents := b.contents ++ data, calls := b.calls + 1 })
  else
    (false, { b with calls := b.calls + 1 })

/-- `class Serializer`: an error flag `mError` and the owned buffer. -/
structure Serializer where
  mError : Bool
  mBuffer : Buffer

/-- `Serializer::write(const void *data, int len)` (Serializer.h lines 49-59):
if `mError` is already set, return `false` without touching the buffer;
otherwise forward to the buffer and latch `mError` when the buffer write
fails. -/
def Serializer.write (s : Serializer) (data : List Nat) : Bool × Serializer :=
  if s.mError then
    (false, s)
  else
    match s.mBuffer.write data with
    | (true, b) => (true, { s with mBuffer := b })
    | (false, b) => (false, { mError := true, mBuffer := b })

/-- `Serializer::hasError()` (Serializer.h line 66). -/
def Serializer.hasError (s : Serializer) : Bool :=
  s.mError

/-- A sequence of `write` calls, returning the list of results and the final
state. -/
def Serializer.writeAll (s : Serializer) : List (List Nat) → List Bool × Serializer
  | [] => ([], s)
  | d :: ds =>
    let (r, s1) := s.write d
    let (rs, s2) := s1.writeAll ds
    (r :: rs, s2)

/-! ## Deserializer (src/rct/Serializer.h, lines 115-183), memory-backed

Constructed from a data pointer and a length; state is the byte array and the
cursor `mPos`.  `peek`/`read` return (bytes copied into the target, return
value, state after the call). -/

structure Deserializer where
  mData : List Nat
  mPos : Nat

/-- `Deserializer::peek(char *target, int len)` (Serializer.h lines 132-147),
memory-backed branch: for `len ≠ 0` it copies `len` bytes starting at `mPos`
(the code asserts `mPos + len <= mLength`) and returns `len`, leaving the
state untouched; for `len = 0` it copies nothing and returns 0. -/
def Deserializer.peek (d : Deserializer) (len : Nat) : List Nat × Nat × Deserializer :=
  if len ≠ 0 then
    ((d.mData.drop d.mPos).take len, len, d)
  else
    ([], 0, d)

/-- `Deserializer::read(void *target, int len)` (Serializer.h lines 149-171),
memory-backed branch: same copy as `peek`, but `mPos += len`. -/
def Deserializer.read (d : Deserializer) (len : Nat) : List Nat × Nat × Deserializer :=
  if len ≠ 0 then
    ((d.mData.drop d.mPos).take len, len, { d with mPos := d.mPos + len })
  else
    ([], 0, d)

/-- `Deserializer::pos()` (Serializer.h line 175), memory-backed branch. -/
def Deserializer.pos (d : Deserializer) : Nat :=
  d.mPos

/-- `Deserializer::length()` (Serializer.h line 176), memory-backed branch. -/
def Deserializer.length (d : Deserializer) : Nat :=
  d.mData.length

/-! ### Lemmas for the Serializer error latch -/

theorem Serializer.write_of_error (s : Serializer) (d : List Nat) (h : s.mError = true) :
    s.write d = (false, s) := by
  simp [Serializer.write, h]

theorem Serializer.writeAll_of_error (s : Serializer) (ds : List (List Nat))
    (h : s.mError = true) : s.writeAll ds = (ds.map fun _ => false, s) := by
  induction ds with
  | nil => simp [Serializer.writeAll]
  | cons d ds ih => simp [Serializer.writeAll, Serializer.write_of_error s d h, ih]

theorem Serializer.mError_of_write_false (s : Serializer) (d : List Nat)
    (h : (s.write d).1 = false) : (s.write d).2.mError = true := by
  by_cases he : s.mError
  · simp [Serializer.write, he]
  · simp only [Serializer.write, he, if_neg, Bool.false_eq_true, if_false]
    rcases hw : s.mBuffer.write d with ⟨ok, b⟩
    cases ok
    · simp
    · simp only [Serializer.write, he] at h
      rw [hw] at h
      simp at h

/-- C8: the Serializer error state is sticky and protects the sink.  Once a
`write` call returns `false`, `hasError` is `true` on the resulting state,
and every subsequent `write` returns `false` while leaving the underlying
buffer (its contents and its call count) completely untouched, so no byte
reaches the sink after the first failure. -/
theorem serializer_error_sticky (s : Serializer) (d : List Nat) (ds : List (List Nat))
    (hfail : (s.write d).1 = false) :
    (s.write d).2.hasError = true ∧
    ((s.write d).2.writeAll ds).1 = (ds.map fun _ => false) ∧
    ((s.write d).2.writeAll ds).2.mBuffer = (s.write d).2.mBuffer := by
  have herr : (s.write d).2.mError = true := Serializer.mError_of_write_false s d hfail
  refine ⟨herr, ?_, ?_⟩
  · rw [Serializer.writeAll_of_error _ _ herr]
  · rw [Serializer.writeAll_of_error _ _ herr]

/-- Concrete instance of `serializer_error_sticky`: a buffer that rejects
every write.  The first write fails; afterwards the error flag is set, both
follow-up writes report failure, and the buffer state is unchanged. -/
theorem serializer_error_sticky_witness :
    ((Serializer.mk false (Buffer.mk [] 0 fun _ => false)).write [1]).2.hasError = true ∧
    (((Serializer.mk false (Buffer.mk [] 0 fun _ => false)).write [1]).2.writeAll
        [[2], [3]]).1 = ([[2], [3]].map fun _ => false) ∧
    (((Serializer.mk false (Buffer.mk [] 0 fun _ => false)).write [1]).2.writeAll
        [[2], [3]]).2.mBuffer =
      ((Serializer.mk false (Buffer.mk [] 0 fun _ => false)).write [1]).2.mBuffer :=
  serializer_error_sticky (Serializer.mk false (Buffer.mk [] 0 fun _ => false)) [1]
    [[2], [3]] (by simp [Serializer.write, Buffer.write])

/-- C9: for a memory-backed Deserializer with `pos + len ≤ length`, `peek`
copies exactly the bytes an immediately following `read` would return and
leaves the whole state (in particular `pos`) unchanged, while `read` copies
those same bytes and advances `pos` by exactly `len`; both return `len`
bytes. -/
theorem deserializer_peek_read (d : Deserializer) (len : Nat)
    (h : d.pos + len ≤ d.length) :
    (d.peek len).1 = (d.read len).1 ∧
    (d.peek len).2.2 = d ∧
    (d.read len).2.2.mPos = d.mPos + len ∧
    (d.read len).2.2.mData = d.mData ∧
    (d.peek len).1.length = len := by
  by_cases hz : len = 0
  · subst hz
    simp [Deserializer.peek, Deserializer.read]
  · refine ⟨?_, ?_, ?_, ?_, ?_⟩
    · simp [Deserializer.peek, Deserializer.read, hz]
    · simp [Deserializer.peek, hz]
    · simp [Deserializer.read, hz]
    · simp [Deserializer.read, hz]
    · simp only [Deserializer.pos, Deserializer.length] at h
      simp only [Deserializer.peek, hz, ne_eq, not_false_iff, if_true]
      rw [List.length_take, List.length_drop]
      omega

/-- Concrete instance of `deserializer_peek_read` on the bytes
`[10, 20, 30]` at position 1 with `len = 2`. -/
theorem deserializer_peek_read_witness :
    ((Deserializer.mk [10, 20, 30] 1).peek 2).1 = ((Deserializer.mk [10, 20, 30] 1).read 2).1 ∧
    ((Deserializer.mk [10, 20, 30] 1).peek 2).2.2 = Deserializer.mk [10, 20, 30] 1 ∧
    ((Deserializer.mk [10, 20, 30] 1).read 2).2.2.mPos = 1 + 2 ∧
    ((Deserializer.mk [10, 20, 30] 1).read 2).2.2.mData = [10, 20, 30] ∧
    ((Deserializer.mk [10, 20, 30] 1).peek 2).1.length = 2 :=
  deserializer_peek_read (Deserializer.mk [10, 20, 30] 1) 2 (by decide)

/-! ## SharedMemory (src/rct/SharedMemory.cpp)

The System-V shared-memory world: `segs` is the table of live key-to-segment
associations (key, segment id), `nextHandle` the next segment id the kernel
hands out, `ipcSetOk` an outcome oracle for `shmctl(IPC_SET)`, and `permsSet`
the segment ids whose permissions were successfully set. -/

structure ShmWorld where
  segs : List (Int × Nat)
  nextHandle : Nat
  ipcSetOk : Bool
  permsSet : List Nat

/-- The segment id currently associated with `key`, if any. -/
def ShmWorld.lookup (w : ShmWorld) (key : Int) : Option Nat :=
  (w.segs.find? fun p => p.1 == key).map (·.2)

/-- `shmget(key, size, IPC_CREAT | IPC_EXCL)` when `excl` is set, and
`shmget(key, size, 0)` otherwise (the only two flag words SharedMemory.cpp
uses).  Exclusive creation fails exactly when the key is taken and otherwise
allocates a fresh segment id; plain lookup fails exactly when the key is
free. -/
def ShmWorld.shmget (w : ShmWorld) (key : Int) (excl : Bool) : Option Nat × ShmWorld :=
  match w.lookup key with
  | some h => if excl then (none, w) else (some h, w)
  | none =>
    if excl then
      (some w.nextHandle,
        { w with segs := (key, w.nextHandle) :: w.segs, nextHandle := w.nextHandle + 1 })
    else (none, w)

/-- `shmctl(h, IPC_RMID, 0)`: the key association of segment `h` is dropped at
once (the segment is marked for removal and its key becomes available
again). -/
def ShmWorld.rmid (w : ShmWorld) (h : Nat) : ShmWorld :=
  { w with segs := w.segs.filter fun p => !(p.2 == h) }

/-- `shmctl(h, IPC_SET, &ds)`: succeeds iff the oracle allows it; on success
segment `h` is recorded as having had its permissions set. -/
def ShmWorld.ipcSet (w : ShmWorld) (h : Nat) : Bool × ShmWorld :=
  if w.ipcSetOk then (true, { w with permsSet := h :: w.permsSet }) else (false, w)

/-- `SharedMemory::CreateMode` (declared in SharedMemory.h; the values used by
SharedMemory.cpp are `None`, `Create` and `Recreate`). -/
inductive CreateMode where
  | None
  | Create
  | Recreate
deriving DecidableEq

/-- The `SharedMemory` instance fields (SharedMemory.cpp): `mShm = -1` is
modelled as `none`, a null `mAddr` as `none`. -/
structure SharedMemory where
  mShm : Option Nat
  mOwner : Bool
  mAddr : Option Nat
  mKey : Int
  mSize : Int
deriving DecidableEq

/-- `SharedMemory::init(key, size, mode)` (SharedMemory.cpp lines 22-58):
reject key `-1`; `shmget` with `IPC_CREAT | IPC_EXCL` unless the mode is
`None`; if that fails in `Recreate` mode, look the existing segment up,
remove it, and exclusively create a fresh one; with no handle, fail; with a
handle and a creating mode, set the permissions, removing the segment and
failing if that fails; on success record key, ownership and size. -/
def SharedMemory.init (sm : SharedMemory) (w : ShmWorld) (key : Int) (size : Int)
    (mode : CreateMode) : Bool × SharedMemory × ShmWorld :=
  if key = -1 then (false, sm, w)
  else
    let (r1, w1) := w.shmget key (decide (mode ≠ CreateMode.None))
    let (r2, w2) :=
      if r1 = none ∧ mode = CreateMode.Recreate then
        match w1.shmget key false with
        | (some h0, w1a) => (w1a.rmid h0).shmget key true
        | (none, w1a) => ((none : Option Nat), w1a)
      else (r1, w1)
    match r2 with
    | none => (false, { sm with mShm := none }, w2)
    | some h =>
      if mode = CreateMode.None then
        (true, { sm with mShm := some h, mKey := key, mOwner := false, mSize := size }, w2)
      else
        match w2.ipcSet h with
        | (true, w3) =>
          (true, { sm with mShm := some h, mKey := key, mOwner := true, mSize := size }, w3)
        | (false, w3) =>
          (false, { sm with mShm := none }, w3.rmid h)

/-- `SharedMemory::AttachFlag` rendered by its read/write capability, the only
part SharedMemory.cpp inspects (`flag & Write`); the flag type itself is
declared in SharedMemory.h. -/
inductive AttachFlag where
  | readOnly
  | readWrite
deriving DecidableEq

def SHM_RDONLY : Nat := 4096

def SHM_RND : Nat := 8192

/-- The flag word `SharedMemory::attach` passes to `shmat` (SharedMemory.cpp
lines 70-72): `SHM_RND` when an address was requested, `SHM_RDONLY` unless
write access was requested. -/
def attachFlagWord (flag : AttachFlag) (address : Option Nat) : Nat :=
  (if address.isSome then SHM_RND else 0) +
    (if flag = AttachFlag.readWrite then 0 else SHM_RDONLY)

/-- `SharedMemory::attach(flag, address)` (SharedMemory.cpp lines 65-79).
`shmat` is an outcome oracle giving the address the kernel would return for
this attempt (`none` standing for `(void*)-1`).  Result: (returned address,
state after the call, whether `shmat` was invoked). -/
def SharedMemory.attach (sm : SharedMemory) (flag : AttachFlag) (address : Option Nat)
    (shmat : Option Nat → Option Nat → Nat → Option Nat) :
    Option Nat × SharedMemory × Bool :=
  match sm.mAddr with
  | some a => (some a, sm, false)
  | none =>
    match shmat sm.mShm address (attachFlagWord flag address) with
    | some a => (some a, { sm with mAddr := some a }, true)
    | none => (none, { sm with mAddr := none }, true)

/-- `SharedMemory::detach()` (SharedMemory.cpp lines 81-88).  Result: (state
after the call, whether `shmdt` was invoked). -/
def SharedMemory.detach (sm : SharedMemory) : SharedMemory × Bool :=
  match sm.mAddr with
  | none => (sm, false)
  | some _ => ({ sm with mAddr := none }, true)

/-! ### Lemmas about the segment table -/

/-- With unique keys, removing the segment found for `key` leaves no entry
for `key` in the table. -/
theorem find_filter_handle_none (l : List (Int × Nat)) (key : Int) (pr : Int × Nat)
    (hnd : (l.map Prod.fst).Nodup)
    (hf : l.find? (fun p => p.1 == key) = some pr) :
    (l.filter fun p => !(p.2 == pr.2)).find? (fun p => p.1 == key) = none := by
  induction l with
  | nil => simp at hf
  | cons q rest ih =>
    rw [List.map_cons, List.nodup_cons] at hnd
    by_cases hq : q.1 = key
    · have hfq : (q :: rest).find? (fun p => p.1 == key) = some q :=
        List.find?_cons_of_pos _ (by simp [hq])
      rw [hfq] at hf
      injection hf with hf
      subst hf
      have hqdrop : (q :: rest).filter (fun p => !(p.2 == q.2)) =
          rest.filter (fun p => !(p.2 == q.2)) := by
        simp [List.filter_cons]
      rw [hqdrop, List.find?_eq_none]
      intro x hx
      have hxr : x ∈ rest := List.mem_of_mem_filter hx
      have hxk : x.1 ≠ key := by
        intro hxk
        exact hnd.1 (hq ▸ hxk ▸ List.mem_map_of_mem Prod.fst hxr)
      simp [hxk]
    · have hfq : (q :: rest).find? (fun p => p.1 == key) =
          rest.find? (fun p => p.1 == key) :=
        List.find?_cons_of_neg _ (by simp [hq])
      rw [hfq] at hf
      rw [List.filter_cons]
      by_cases hq2 : q.2 = pr.2
      · simp only [hq2, beq_self_eq_true, Bool.not_true, if_false, ite_false]
        exact ih hnd.2 hf
      · have hkeep : (!(q.2 == pr.2)) = true := by simp [hq2]
        rw [if_pos hkeep, List.find?_cons_of_neg _ (by simp [hq])]
        exact ih hnd.2 hf

/-- With unique keys, `rmid` on the segment associated with `key` frees the
key. -/
theorem lookup_rmid_of_lookup (w : ShmWorld) (key : Int) (h0 : Nat)
    (hnd : (w.segs.map Prod.fst).Nodup) (hl : w.lookup key = some h0) :
    (w.rmid h0).lookup key = none := by
  unfold ShmWorld.lookup at hl ⊢
  unfold ShmWorld.rmid
  rcases hfind : w.segs.find? (fun p => p.1 == key) with _ | pr
  · rw [hfind] at hl
    simp at hl
  · rw [hfind] at hl
    simp only [Option.map_some'] at hl
    injection hl with hl
    subst hl
    rw [find_filter_handle_none w.segs key pr hnd hfind]
    rfl

/-- A segment id returned by `lookup` occurs in the table. -/
theorem lookup_lt_nextHandle (w : ShmWorld) (key : Int) (h0 : Nat)
    (halloc : ∀ p ∈ w.segs, p.2 < w.nextHandle) (hl : w.lookup key = some h0) :
    h0 < w.nextHandle := by
  unfold ShmWorld.lookup at hl
  rcases hfind : w.segs.find? (fun p => p.1 == key) with _ | pr
  · rw [hfind] at hl
    simp at hl
  · rw [hfind] at hl
    simp only [Option.map_some'] at hl
    injection hl with hl
    subst hl
    exact halloc pr (List.mem_of_find?_eq_some hfind)

/-- `init` in `Recreate` mode when the key is free: the segment is created
exclusively on the first try; success then rides on `shmctl(IPC_SET)`. -/
theorem init_recreate_absent_eq (sm : SharedMemory) (w : ShmWorld) (key size : Int)
    (hkey : ¬ key = -1) (hl : w.lookup key = none) :
    sm.init w key size CreateMode.Recreate =
      if w.ipcSetOk then
        (true, { sm with mShm := some w.nextHandle, mKey := key, mOwner := true,
                         mSize := size },
          { segs := (key, w.nextHandle) :: w.segs, nextHandle := w.nextHandle + 1,
            ipcSetOk := w.ipcSetOk, permsSet := w.nextHandle :: w.permsSet })
      else
        (false, { sm with mShm := none },
          { segs := ((key, w.nextHandle) :: w.segs).filter
              (fun p => !(p.2 == w.nextHandle)),
            nextHandle := w.nextHandle + 1, ipcSetOk := w.ipcSetOk,
            permsSet := w.permsSet }) := by
  have h1 : w.shmget key true =
      (some w.nextHandle,
        { w with segs := (key, w.nextHandle) :: w.segs,
                 nextHandle := w.nextHandle + 1 }) := by
    simp [ShmWorld.shmget, hl]
  by_cases hip : w.ipcSetOk <;>
    simp [SharedMemory.init, hkey, h1, ShmWorld.ipcSet, ShmWorld.rmid, hip]

/-- `init` in `Recreate` mode when the key is taken by segment `h0`: the old
segment is removed and a fresh one created at the key; success then rides on
`shmctl(IPC_SET)`. -/
theorem init_recreate_present_eq (sm : SharedMemory) (w : ShmWorld) (key size : Int)
    (h0 : Nat) (hkey : ¬ key = -1) (hnd : (w.segs.map Prod.fst).Nodup)
    (hl : w.lookup key = some h0) :
    sm.init w key size CreateMode.Recreate =
      if w.ipcSetOk then
        (true, { sm with mShm := some w.nextHandle, mKey := key, mOwner := true,
                         mSize := size },
          { segs := (key, w.nextHandle) :: (w.segs.filter fun p => !(p.2 == h0)),
            nextHandle := w.nextHandle + 1, ipcSetOk := w.ipcSetOk,
            permsSet := w.nextHandle :: w.permsSet })
      else
        (false, { sm with mShm := none },
          { segs := ((key, w.nextHandle) ::
                (w.segs.filter fun p => !(p.2 == h0))).filter
              (fun p => !(p.2 == w.nextHandle)),
            nextHandle := w.nextHandle + 1, ipcSetOk := w.ipcSetOk,
            permsSet := w.permsSet }) := by
  rcases hfind : w.segs.find? (fun p => p.1 == key) with _ | pr
  · exfalso
    unfold ShmWorld.lookup at hl
    rw [hfind] at hl
    simp at hl
  · have hpr2 : pr.2 = h0 := by
      unfold ShmWorld.lookup at hl
      rw [hfind] at hl
      simpa using hl
    have hfind2 : (w.segs.filter fun p => !(p.2 == h0)).find? (fun p => p.1 == key) =
        none := by
      rw [← hpr2]
      exact find_filter_handle_none w.segs key pr hnd hfind
    by_cases hip : w.ipcSetOk <;>
      simp [SharedMemory.init, ShmWorld.shmget, ShmWorld.lookup, ShmWorld.ipcSet,
        ShmWorld.rmid, hkey, hfind, hpr2, hfind2, hip]

/-- C7: `SharedMemory::init` in destroy-and-recreate mode.  Key `-1` fails at
once without touching any segment; for any other key, when exclusive creation
fails because the key is taken, the existing segment is removed and a fresh
one (with a new segment id) is created in its place; `init` returns `true`
exactly when a handle is obtained and its permissions are set (in this
deterministic model, exactly when `shmctl(IPC_SET)` succeeds), and on success
the instance holds the fresh handle, its permissions were set, and the
instance records itself as owner. -/
theorem sharedMemory_init_recreate (sm : SharedMemory) (w : ShmWorld)
    (key size : Int) (mode : CreateMode)
    (hnd : (w.segs.map Prod.fst).Nodup)
    (halloc : ∀ p ∈ w.segs, p.2 < w.nextHandle) :
    (key = -1 → sm.init w key size mode = (false, sm, w)) ∧
    (key ≠ -1 →
      ((sm.init w key size CreateMode.Recreate).1 = true ↔ w.ipcSetOk = true)) ∧
    (key ≠ -1 → (sm.init w key size CreateMode.Recreate).1 = true →
      (sm.init w key size CreateMode.Recreate).2.1.mShm = some w.nextHandle ∧
      w.nextHandle ∈ (sm.init w key size CreateMode.Recreate).2.2.permsSet ∧
      (sm.init w key size CreateMode.Recreate).2.1.mOwner = true) ∧
    (key ≠ -1 → ∀ h0, w.lookup key = some h0 →
      (∀ p ∈ (sm.init w key size CreateMode.Recreate).2.2.segs, p.2 ≠ h0) ∧
      (w.ipcSetOk = true →
        (sm.init w key size CreateMode.Recreate).2.2.lookup key = some w.nextHandle ∧
        h0 ≠ w.nextHandle)) := by
  refine ⟨?_, ?_, ?_, ?_⟩
  · intro hk
    simp [SharedMemory.init, hk]
  · intro hk
    rcases hlk : w.lookup key with _ | h0
    · rw [init_recreate_absent_eq sm w key size hk hlk]
      by_cases hip : w.ipcSetOk <;> simp [hip]
    · rw [init_recreate_present_eq sm w key size h0 hk hnd hlk]
      by_cases hip : w.ipcSetOk <;> simp [hip]
  · intro hk hsucc
    rcases hlk : w.lookup key with _ | h0
    · rw [init_recreate_absent_eq sm w key size hk hlk] at hsucc ⊢
      by_cases hip : w.ipcSetOk
      · simp [hip]
      · rw [if_neg hip] at hsucc
        simp at hsucc
    · rw [init_recreate_present_eq sm w key size h0 hk hnd hlk] at hsucc ⊢
      by_cases hip : w.ipcSetOk
      · simp [hip]
      · rw [if_neg hip] at hsucc
        simp at hsucc
  · intro hk h0 hlk
    have hlt : h0 < w.nextHandle := lookup_lt_nextHandle w key h0 halloc hlk
    rw [init_recreate_present_eq sm w key size h0 hk hnd hlk]
    constructor
    · intro p hp
      by_cases hip : w.ipcSetOk
      · rw [if_pos hip] at hp
        simp only at hp
        rcases List.mem_cons.mp hp with hph | hpt
        · subst hph
          omega
        · have := List.of_mem_filter hpt
          simp at this
          exact this
      · rw [if_neg hip] at hp
        simp only at hp
        have hp2 := List.mem_of_mem_filter hp
        rcases List.mem_cons.mp hp2 with hph | hpt
        · subst hph
          omega
        · have := List.of_mem_filter hpt
          simp at this
          exact this
    · intro hip
      rw [if_pos hip]
      refine ⟨?_, by omega⟩
      simp [ShmWorld.lookup]

/-- Concrete instance of `sharedMemory_init_recreate`: a world holding one
segment `(key 4, id 0)` with working `IPC_SET`.  `Recreate` init on key 4
succeeds, removes segment 0, and installs fresh segment 1 at key 4; init on
key `-1` fails and changes nothing. -/
theorem sharedMemory_init_recreate_witness :
    ((SharedMemory.mk none false none 0 0).init (ShmWorld.mk [(4, 0)] 1 true []) (-1) 16
        CreateMode.Recreate =
      (false, SharedMemory.mk none false none 0 0, ShmWorld.mk [(4, 0)] 1 true [])) ∧
    (((SharedMemory.mk none false none 0 0).init (ShmWorld.mk [(4, 0)] 1 true []) 4 16
        CreateMode.Recreate).1 = true ↔ (ShmWorld.mk [(4, 0)] 1 true []).ipcSetOk = true) ∧
    (∀ p ∈ (((SharedMemory.mk none false none 0 0).init (ShmWorld.mk [(4, 0)] 1 true [])
        4 16 CreateMode.Recreate)).2.2.segs, p.2 ≠ 0) := by
  refine ⟨?_, ?_, ?_⟩
  · exact (sharedMemory_init_recreate (SharedMemory.mk none false none 0 0)
      (ShmWorld.mk [(4, 0)] 1 true []) (-1) 16 CreateMode.Recreate (by simp)
      (by intro p hp; simp at hp; simp [hp])).1 rfl
  · exact (sharedMemory_init_recreate (SharedMemory.mk none false none 0 0)
      (ShmWorld.mk [(4, 0)] 1 true []) 4 16 CreateMode.Recreate (by simp)
      (by intro p hp; simp at hp; simp [hp])).2.1 (by decide)
  · exact ((sharedMemory_init_recreate (SharedMemory.mk none false none 0 0)
      (ShmWorld.mk [(4, 0)] 1 true []) 4 16 CreateMode.Recreate (by simp)
      (by intro p hp; simp at hp; simp [hp])).2.2.2 (by decide) 0 (by simp [ShmWorld.lookup])).1

/-- C10: `attach` is idempotent and failure-atomic, and `detach` on an
unattached instance is a no-op.  With a mapping present, any further `attach`
returns the existing address without invoking `shmat`, whatever its flag and
address arguments; a failed mapping attempt returns a null address and leaves
the attached-address state null; `detach` with no mapping neither changes the
state nor calls `shmdt`. -/
theorem sharedMemory_attach_detach (sm : SharedMemory) (flag : AttachFlag)
    (address : Option Nat) (shmat : Option Nat → Option Nat → Nat → Option Nat) :
    (∀ a, sm.mAddr = some a → sm.attach flag address shmat = (some a, sm, false)) ∧
    (sm.mAddr = none → shmat sm.mShm address (attachFlagWord flag address) = none →
      sm.attach flag address shmat = (none, sm, true)) ∧
    (sm.mAddr = none → sm.detach = (sm, false)) := by
  refine ⟨?_, ?_, ?_⟩
  · intro a ha
    simp [SharedMemory.attach, ha]
  · intro ha ho
    cases sm with
    | mk mShm mOwner mAddr mKey mSize =>
      cases ha
      simp only [SharedMemory.attach] at ho ⊢
      rw [ho]
  · intro ha
    simp [SharedMemory.detach, ha]

/-- Concrete instance of `sharedMemory_attach_detach`: an attached instance
returns its existing address with no `shmat` call; on an unattached instance
a failing `shmat` leaves it unattached, and `detach` is a no-op. -/
theorem sharedMemory_attach_detach_witness :
    (SharedMemory.mk (some 1) true (some 5) 7 16).attach AttachFlag.readWrite none
        (fun _ _ _ => none) = (some 5, SharedMemory.mk (some 1) true (some 5) 7 16, false) ∧
    (SharedMemory.mk (some 1) true none 7 16).attach AttachFlag.readOnly none
        (fun _ _ _ => none) = (none, SharedMemory.mk (some 1) true none 7 16, true) ∧
    (SharedMemory.mk (some 1) true none 7 16).detach =
      (SharedMemory.mk (some 1) true none 7 16, false) :=
  ⟨(sharedMemory_attach_detach (SharedMemory.mk (some 1) true (some 5) 7 16)
      AttachFlag.readWrite none (fun _ _ _ => none)).1 5 rfl,
   (sharedMemory_attach_detach (SharedMemory.mk (some 1) true none 7 16)
      AttachFlag.readOnly none (fun _ _ _ => none)).2.1 rfl rfl,
   (sharedMemory_attach_detach (SharedMemory.mk (some 1) true none 7 16)
      AttachFlag.readOnly none (fun _ _ _ => none)).2.2 rfl⟩

/-! ## EventLoop timer identifiers (src/rct/EventLoop.h)

`EventLoop::generateId` is `return nextId++;` (lines 214-215) where `nextId`
is a `uint32_t` (line 232) and the function returns `int`.  The counter is
modelled as the `Nat` value of the `uint32_t`; the returned `int` is its
two-complement 32-bit reading. -/

/-- The value of a `uint32_t` read back through a 32-bit `int`. -/
def toInt32 (n : Nat) : Int :=
  if n % 2 ^ 32 < 2 ^ 31 then ((n % 2 ^ 32 : Nat) : Int)
  else ((n % 2 ^ 32 : Nat) : Int) - 2 ^ 32

/-- `EventLoop::generateId()` (EventLoop.h lines 214-215): returns the current
counter as an `int` and increments the `uint32_t` counter. -/
def generateId (nextId : Nat) : Int × Nat :=
  (toInt32 nextId, (nextId + 1) % 2 ^ 32)

/-- The identifiers returned by `n` consecutive `generateId` calls starting
from counter value `s`. -/
def generateIds : Nat → Nat → List Int
  | _, 0 => []
  | s, n + 1 => (generateId s).1 :: generateIds (generateId s).2 n

/-- One timer registration: identifier, next expiration, period, repeat
policy (spec section 3, TimerRegistration). -/
structure TimerReg where
  id : Int
  next : Nat
  period : Nat
  singleShot : Bool
deriving DecidableEq

/-- Timer-subsystem state: the active registrations and the `uint32_t`
`nextId` counter (EventLoop.h line 232). -/
structure TimerState where
  timers : List TimerReg
  nextId : Nat
deriving DecidableEq

/-- Modelled from the spec: `EventLoop::registerTimer` (declared at
EventLoop.h lines 178-179; its body is outside the visible source) allocates
its identifier with `generateId` (EventLoop.h lines 214-215), schedules the
first expiration at `now + timeoutMs`, and stores the flags' single-shot
choice. -/
def registerTimer (st : TimerState) (now timeoutMs : Nat) (singleShot : Bool) :
    Int × TimerState :=
  ((generateId st.nextId).1,
    { timers := st.timers ++
        [TimerReg.mk (generateId st.nextId).1 (now + timeoutMs) timeoutMs singleShot],
      nextId := (generateId st.nextId).2 })

/-- The identifiers returned by `n` consecutive `registerTimer` calls. -/
def registerTimerIds : TimerState → Nat → Nat → Bool → Nat → List Int
  | _, _, _, _, 0 => []
  | st, now, ms, ss, n + 1 =>
    (registerTimer st now ms ss).1 ::
      registerTimerIds (registerTimer st now ms ss).2 now ms ss n

/-- `registerTimer` draws its identifiers exactly from `generateId`. -/
theorem registerTimerIds_eq_generateIds (st : TimerState) (now ms : Nat) (ss : Bool)
    (n : Nat) : registerTimerIds st now ms ss n = generateIds st.nextId n := by
  induction n generalizing st with
  | zero => rfl
  | succ n ih =>
    rw [registerTimerIds, generateIds]
    exact congrArg _ (ih _)

/-- Below the 32-bit wrap the identifier stream is just the counter values. -/
theorem generateIds_eq_of_no_wrap (s n : Nat) (h : s + n ≤ 2 ^ 31) :
    generateIds s n = (List.range n).map (fun k => ((s + k : Nat) : Int)) := by
  induction n generalizing s with
  | zero => simp [generateIds]
  | succ n ih =>
    have hs : s % 2 ^ 32 < 2 ^ 31 := by
      rw [Nat.mod_eq_of_lt (by omega)]
      omega
    have h1 : (generateId s).1 = (s : Int) := by
      simp only [generateId, toInt32, if_pos hs]
      rw [Nat.mod_eq_of_lt (by omega)]
    have h2 : (generateId s).2 = s + 1 := by
      simp only [generateId]
      exact Nat.mod_eq_of_lt (by omega)
    rw [generateIds, h1, h2, ih (s + 1) (by omega), List.range_succ_eq_map]
    rw [List.map_cons, List.map_map]
    refine congrArg₂ _ (by simp) ?_
    refine List.map_congr_left ?_
    intro k _
    simp only [Function.comp]
    exact congrArg _ (by omega)

/-- C4 counterexample: `nextId` is a `uint32_t` returned through `int`, so at
counter value `2^31 - 1` (reached from any start after finitely many
registrations, the counter wrapping modulo `2^32`) two consecutive
`registerTimer` calls return `INT32_MAX` and then `INT32_MIN`: the returned
identifiers are not strictly increasing. -/
theorem registerTimer_ids_wrap_counterexample :
    registerTimerIds (TimerState.mk [] 2147483647) 0 10 true 2 =
      [(2147483647 : Int), -2147483648] ∧
    ¬ List.Pairwise (· < ·) (registerTimerIds (TimerState.mk [] 2147483647) 0 10 true 2) := by
  constructor
  · decide
  · decide

/-- C4 amended: as long as the 32-bit counter does not pass `2^31` during the
run, the identifiers returned by consecutive `registerTimer` calls on one
instance are the successive counter values, strictly increasing and pairwise
distinct (no identifier is reused within such a run). -/
theorem registerTimer_ids_strictly_increasing_no_wrap (st : TimerState)
    (now ms : Nat) (ss : Bool) (n : Nat) (h : st.nextId + n ≤ 2 ^ 31) :
    registerTimerIds st now ms ss n =
      (List.range n).map (fun k => ((st.nextId + k : Nat) : Int)) ∧
    List.Pairwise (· < ·) (registerTimerIds st now ms ss n) ∧
    (registerTimerIds st now ms ss n).Nodup := by
  have heq : registerTimerIds st now ms ss n =
      (List.range n).map (fun k => ((st.nextId + k : Nat) : Int)) :=
    (registerTimerIds_eq_generateIds st now ms ss n).trans
      (generateIds_eq_of_no_wrap st.nextId n h)
  have hpair : List.Pairwise (· < ·) (registerTimerIds st now ms ss n) := by
    rw [heq, List.pairwise_map]
    refine (List.pairwise_lt_range n).imp ?_
    intro a b hab
    exact_mod_cast Nat.add_lt_add_left hab st.nextId
  exact ⟨heq, hpair, hpair.imp ne_of_lt⟩

/-- Concrete instance of `registerTimer_ids_strictly_increasing_no_wrap`:
three registrations from a fresh counter yield ids 0, 1, 2. -/
theorem registerTimer_ids_strictly_increasing_no_wrap_witness :
    registerTimerIds (TimerState.mk [] 0) 0 10 true 3 =
      (List.range 3).map (fun k => ((0 + k : Nat) : Int)) ∧
    List.Pairwise (· < ·) (registerTimerIds (TimerState.mk [] 0) 0 10 true 3) ∧
    (registerTimerIds (TimerState.mk [] 0) 0 10 true 3).Nodup :=
  registerTimer_ids_strictly_increasing_no_wrap (TimerState.mk [] 0) 0 10 true 3
    (by decide)

/-! ## The main-loop registry (src/rct/EventLoop.h, lines 189-199 and 234)

`static EventLoop::WeakPtr mainLoop` is a process-wide weak reference.  The
registry is modelled by the referenced loop id together with per-loop strong
reference counts (which decide whether `std::weak_ptr::lock()` succeeds) and
each loop's stored `threadId` (EventLoop.h line 220). -/

structure MainReg where
  mainRef : Option Nat
  strong : Nat → Nat
  loopThread : Nat → Nat

/-- `EventLoop::mainEventLoop()` (EventLoop.h lines 189-190):
`mainLoop.lock()` under `mainMutex` — a shared handle when the referenced
instance still has a strong owner, `none` otherwise. -/
def mainEventLoop (r : MainReg) : Option Nat :=
  match r.mainRef with
  | none => none
  | some l => if r.strong l ≠ 0 then some l else none

/-- `EventLoop::isMainThread()` (EventLoop.h lines 194-199): true iff
`mainEventLoop()` yields an instance and the calling thread's identity equals
that instance's `threadId`. -/
def isMainThread (r : MainReg) (tid : Nat) : Bool :=
  match mainEventLoop r with
  | some l => tid == r.loopThread l
  | none => false

/-- Modelled from the spec: `EventLoop::init` with the `MainEventLoop` flag
(EventLoop.h line 108; the body is outside the visible source) publishes the
instance to the registry's main slot as a weak reference; publishing touches
no strong count. -/
def setMainSlot (r : MainReg) (l : Nat) : MainReg :=
  { r with mainRef := some l }

/-- Release one strong owner of loop `l` (`std::shared_ptr` semantics: the
instance is destroyed when the count reaches zero). -/
def dropStrong (r : MainReg) (l : Nat) : MainReg :=
  { r with strong := fun x => if x = l then r.strong l - 1 else r.strong x }

/-- C5: `isMainThread()` returns true iff a main loop instance currently
exists (the slot is populated and the instance still strongly owned) and the
calling thread's identity equals the owning-thread identity stored in it. -/
theorem isMainThread_iff (r : MainReg) (tid : Nat) :
    isMainThread r tid = true ↔
      ∃ l, r.mainRef = some l ∧ r.strong l ≠ 0 ∧ tid = r.loopThread l := by
  rcases hm : r.mainRef with _ | l
  · simp [isMainThread, mainEventLoop, hm]
  · by_cases hs : r.strong l = 0
    · simp [isMainThread, mainEventLoop, hm, hs]
    · simp [isMainThread, mainEventLoop, hm, hs]

/-- Concrete instance of `isMainThread_iff`: with main loop 7 alive and owned
by thread 42, thread 42 is the main thread and thread 5 is not. -/
theorem isMainThread_iff_witness :
    isMainThread (MainReg.mk (some 7) (fun _ => 1) (fun _ => 42)) 42 = true ∧
    ¬ isMainThread (MainReg.mk (some 7) (fun _ => 1) (fun _ => 42)) 5 = true :=
  ⟨(isMainThread_iff (MainReg.mk (some 7) (fun _ => 1) (fun _ => 42)) 42).mpr
      ⟨7, rfl, by simp, rfl⟩,
   fun h => by
    rcases (isMainThread_iff (MainReg.mk (some 7) (fun _ => 1) (fun _ => 42)) 5).mp h
      with ⟨l, _, _, ht⟩
    simp at ht⟩

/-- C6: `mainEventLoop()` returns a shared handle exactly when the main slot
is populated and the instance still has a strong owner; the registry's weak
reference adds no strong count (it never extends the instance's lifetime);
and once the last strong owner is released the main slot reads as empty. -/
theorem mainEventLoop_weak (r : MainReg) (l : Nat) :
    (mainEventLoop r = some l ↔ r.mainRef = some l ∧ r.strong l ≠ 0) ∧
    (setMainSlot r l).strong = r.strong ∧
    (r.mainRef = some l → r.strong l = 1 → mainEventLoop (dropStrong r l) = none) := by
  refine ⟨?_, rfl, ?_⟩
  · rcases hm : r.mainRef with _ | l2
    · simp [mainEventLoop, hm]
    · by_cases hs : r.strong l2 = 0
      · simp only [mainEventLoop, hm, hs, ne_eq, not_true_eq_false, if_false,
          ite_false]
        constructor
        · intro h
          cases h
        · rintro ⟨hl2, hsl⟩
          injection hl2 with hl2
          subst hl2
          exact absurd hs hsl
      · simp only [mainEventLoop, hm, hs, ne_eq, not_false_iff, if_true, ite_true]
        constructor
        · intro h
          injection h with h
          subst h
          exact ⟨rfl, hs⟩
        · rintro ⟨hl2, _⟩
          injection hl2 with hl2
          subst hl2
          rfl
  · intro hm h1
    simp only [mainEventLoop, dropStrong, hm]
    simp [h1]

/-- Concrete instance of `mainEventLoop_weak`: main loop 7 with one strong
owner is returned; after the owner releases it the slot reads as empty. -/
theorem mainEventLoop_weak_witness :
    mainEventLoop (MainReg.mk (some 7) (fun _ => 1) (fun _ => 42)) = some 7 ∧
    mainEventLoop (dropStrong (MainReg.mk (some 7) (fun _ => 1) (fun _ => 42)) 7) = none :=
  ⟨(mainEventLoop_weak (MainReg.mk (some 7) (fun _ => 1) (fun _ => 42)) 7).1.mpr
      ⟨rfl, by simp⟩,
   (mainEventLoop_weak (MainReg.mk (some 7) (fun _ => 1) (fun _ => 42)) 7).2.2 rfl rfl⟩

/-! ## Deferred events and deleteLater (src/rct/EventLoop.h, lines 33-85 and
120-128)

The `Event` hierarchy: a `SignalEvent` executes a bound call, a
`DeleteLaterEvent` holding heap value `del` destroys it when executed
(`void exec() { delete del; }`, EventLoop.h line 81).  Heap values and bound
calls are named by `Nat` tags. -/

/-- What executing an event does. -/
inductive EventAction where
  | invoke (call : Nat)
  | destroy (v : Nat)
deriving DecidableEq

/-- The deferred `Event` variants (EventLoop.h lines 33-85). -/
inductive Event where
  | signalEvent (call : Nat)
  | deleteLaterEvent (del : Nat)
deriving DecidableEq

/-- `Event::exec()` as its observable action: `SignalEvent::exec` applies the
bound call (EventLoop.h line 65), `DeleteLaterEvent::exec` destroys the owned
value (line 81). -/
def Event.exec : Event → EventAction
  | .signalEvent c => EventAction.invoke c
  | .deleteLaterEvent d => EventAction.destroy d

/-- One loop as the registry sees it: its owning thread and its pending FIFO
deferred-call queue (back of the list = newest). -/
structure LoopRec where
  threadId : Nat
  queue : List Event
deriving DecidableEq

/-- The process-wide loop world: loops by id, plus the designated main loop
id when one is alive. -/
structure LoopWorld where
  loops : List (Nat × LoopRec)
  mainId : Option Nat
deriving DecidableEq

/-- The loop bound to thread `tid`, if any. -/
def LoopWorld.threadLoop (w : LoopWorld) (tid : Nat) : Option Nat :=
  (w.loops.find? fun p => p.2.threadId == tid).map (·.1)

/-- Modelled from the spec: `EventLoop::eventLoop()` (declared at EventLoop.h
line 192; its body is outside the visible source) returns the instance bound
to the calling thread when there is one, else falls back to
`mainEventLoop()`. -/
def LoopWorld.eventLoop (w : LoopWorld) (tid : Nat) : Option Nat :=
  match w.threadLoop tid with
  | some l => some l
  | none => w.mainId

/-- Modelled from the spec: `EventLoop::post(Event*)` (declared at EventLoop.h
line 162; body outside the visible source) enqueues the event at the back of
the loop's FIFO deferred queue. -/
def LoopWorld.postTo (w : LoopWorld) (l : Nat) (e : Event) : LoopWorld :=
  { w with loops := w.loops.map fun p =>
      if p.1 = l then (p.1, LoopRec.mk p.2.threadId (p.2.queue ++ [e])) else p }

/-- `EventLoop::deleteLater(del)` (EventLoop.h lines 120-128): wrap `del` into
a `DeleteLaterEvent` and post it to `eventLoop()`; with no loop reachable,
report an error ("No event loop!") and do nothing with `del`.  Result: (world
after the call, whether an error was reported). -/
def deleteLater (w : LoopWorld) (tid : Nat) (del : Nat) : LoopWorld × Bool :=
  match w.eventLoop tid with
  | some l => (w.postTo l (Event.deleteLaterEvent del), false)
  | none => (w, true)

/-- The pending queue of the loop with id `l` in a loop table. -/
def queueIn (ll : List (Nat × LoopRec)) (l : Nat) : List Event :=
  ((ll.find? fun p => p.1 == l).map fun p => p.2.queue).getD []

/-- The pending queue of loop `l`. -/
def LoopWorld.queueOf (w : LoopWorld) (l : Nat) : List Event :=
  queueIn w.loops l

/-! ### Queue lemmas for `postTo` -/

theorem queueIn_update_self (ll : List (Nat × LoopRec)) (l : Nat) (e : Event)
    (hl : (ll.find? fun p => p.1 == l).isSome) :
    queueIn (ll.map fun p =>
      if p.1 = l then (p.1, LoopRec.mk p.2.threadId (p.2.queue ++ [e])) else p) l =
      queueIn ll l ++ [e] := by
  induction ll with
  | nil => simp at hl
  | cons q rest ih =>
    by_cases hq : q.1 = l
    · unfold queueIn
      rw [List.map_cons, if_pos hq]
      rw [List.find?_cons_of_pos _ (by simp [hq]),
        List.find?_cons_of_pos _ (by simp [hq])]
      simp
    · unfold queueIn at ih ⊢
      rw [List.map_cons, if_neg hq]
      rw [List.find?_cons_of_neg _ (by simp [hq]),
        List.find?_cons_of_neg _ (by simp [hq])]
      rw [List.find?_cons_of_neg _ (by simp [hq])] at hl
      exact ih hl

theorem queueIn_update_other (ll : List (Nat × LoopRec)) (l l2 : Nat) (e : Event)
    (hne : l2 ≠ l) :
    queueIn (ll.map fun p =>
      if p.1 = l then (p.1, LoopRec.mk p.2.threadId (p.2.queue ++ [e])) else p) l2 =
      queueIn ll l2 := by
  induction ll with
  | nil => rfl
  | cons q rest ih =>
    unfold queueIn at ih ⊢
    by_cases hq : q.1 = l
    · have hq2 : ¬ q.1 = l2 := by
        rw [hq]
        exact fun h => hne h.symm
      rw [List.map_cons, if_pos hq]
      rw [List.find?_cons_of_neg _ (by simp [hq2]),
        List.find?_cons_of_neg _ (by simp [hq2])]
      exact ih
    · rw [List.map_cons, if_neg hq]
      by_cases hq2 : q.1 = l2
      · rw [List.find?_cons_of_pos _ (by simp [hq2]),
          List.find?_cons_of_pos _ (by simp [hq2])]
      · rw [List.find?_cons_of_neg _ (by simp [hq2]),
          List.find?_cons_of_neg _ (by simp [hq2])]
        exact ih

theorem queueOf_postTo_self (w : LoopWorld) (l : Nat) (e : Event)
    (hl : (w.loops.find? fun p => p.1 == l).isSome) :
    (w.postTo l e).queueOf l = w.queueOf l ++ [e] :=
  queueIn_update_self w.loops l e hl

theorem queueOf_postTo_other (w : LoopWorld) (l l2 : Nat) (e : Event)
    (hne : l2 ≠ l) : (w.postTo l e).queueOf l2 = w.queueOf l2 :=
  queueIn_update_other w.loops l l2 e hne

/-- A loop found by thread lookup is present in the table. -/
theorem threadLoop_mem (w : LoopWorld) (tid l : Nat)
    (h : w.threadLoop tid = some l) :
    (w.loops.find? fun p => p.1 == l).isSome := by
  unfold LoopWorld.threadLoop at h
  rcases hfind : w.loops.find? (fun p => p.2.threadId == tid) with _ | pr
  · rw [hfind] at h
    simp at h
  · rw [hfind] at h
    simp only [Option.map_some'] at h
    injection h with h
    subst h
    rw [List.find?_isSome]
    exact ⟨pr, List.mem_of_find?_eq_some hfind, by simp⟩

/-- C1: `deleteLater(del)` posts a release call whose execution destroys
`del` to the loop bound to the calling thread when one exists, else to the
process's main loop; when neither is reachable it reports an error and leaves
every queue unchanged, so nothing ever destroys `del`. -/
theorem deleteLater_spec (w : LoopWorld) (tid del : Nat)
    (hmain : ∀ m, w.mainId = some m → (w.loops.find? fun p => p.1 == m).isSome) :
    (∀ l, w.threadLoop tid = some l →
      (deleteLater w tid del).2 = false ∧
      (deleteLater w tid del).1.queueOf l =
        w.queueOf l ++ [Event.deleteLaterEvent del] ∧
      ∀ l2, l2 ≠ l → (deleteLater w tid del).1.queueOf l2 = w.queueOf l2) ∧
    (w.threadLoop tid = none → ∀ m, w.mainId = some m →
      (deleteLater w tid del).2 = false ∧
      (deleteLater w tid del).1.queueOf m =
        w.queueOf m ++ [Event.deleteLaterEvent del] ∧
      ∀ l2, l2 ≠ m → (deleteLater w tid del).1.queueOf l2 = w.queueOf l2) ∧
    (w.threadLoop tid = none → w.mainId = none →
      deleteLater w tid del = (w, true)) ∧
    (Event.deleteLaterEvent del).exec = EventAction.destroy del := by
  refine ⟨?_, ?_, ?_, rfl⟩
  · intro l hl
    have hev : w.eventLoop tid = some l := by
      unfold LoopWorld.eventLoop
      rw [hl]
    unfold deleteLater
    rw [hev]
    exact ⟨rfl, queueOf_postTo_self w l _ (threadLoop_mem w tid l hl),
      fun l2 h2 => queueOf_postTo_other w l l2 _ h2⟩
  · intro hl m hm
    have hev : w.eventLoop tid = some m := by
      unfold LoopWorld.eventLoop
      rw [hl, hm]
    unfold deleteLater
    rw [hev]
    exact ⟨rfl, queueOf_postTo_self w m _ (hmain m hm),
      fun l2 h2 => queueOf_postTo_other w m l2 _ h2⟩
  · intro hl hm
    have hev : w.eventLoop tid = none := by
      unfold LoopWorld.eventLoop
      rw [hl, hm]
    unfold deleteLater
    rw [hev]

/-- Concrete instance of `deleteLater_spec`: with loop 1 bound to thread 10,
`deleteLater` from thread 10 enqueues the release event on loop 1 with no
error; in an empty world it reports an error and changes nothing. -/
theorem deleteLater_spec_witness :
    ((deleteLater (LoopWorld.mk [(1, LoopRec.mk 10 [])] none) 10 99).2 = false ∧
      (deleteLater (LoopWorld.mk [(1, LoopRec.mk 10 [])] none) 10 99).1.queueOf 1 =
        (LoopWorld.mk [(1, LoopRec.mk 10 [])] none).queueOf 1 ++
          [Event.deleteLaterEvent 99] ∧
      ∀ l2, l2 ≠ 1 →
        (deleteLater (LoopWorld.mk [(1, LoopRec.mk 10 [])] none) 10 99).1.queueOf l2 =
          (LoopWorld.mk [(1, LoopRec.mk 10 [])] none).queueOf l2) ∧
    deleteLater (LoopWorld.mk [] none) 5 99 = (LoopWorld.mk [] none, true) :=
  ⟨(deleteLater_spec (LoopWorld.mk [(1, LoopRec.mk 10 [])] none) 10 99
      (by intro m hm; cases hm)).1 1 rfl,
   (deleteLater_spec (LoopWorld.mk [] none) 5 99
      (by intro m hm; cases hm)).2.2.1 rfl rfl⟩

/-! ## One iteration of exec (spec section 4.1, step order)

`EventLoop::exec` is declared at EventLoop.h line 183; its body is outside
the visible source.  One iteration is modelled from the spec: (3) drain the
deferred-call queue completely in FIFO order, (4) fire all expired timers
(rescheduling repeating ones from the prior scheduled time, removing
single-shot ones), (5) dispatch every socket with fired readiness bits.  A
`Dispatch` records one user-callback invocation in trace order. -/

inductive Dispatch where
  | deferredCall (e : Event)
  | timerFire (id : Int)
  | socketFire (fd : Nat) (bits : Nat)
deriving DecidableEq

/-- Phase of an iteration a dispatch belongs to: deferred calls first, then
timers, then sockets. -/
def Dispatch.kindRank : Dispatch → Nat
  | .deferredCall _ => 0
  | .timerFire _ => 1
  | .socketFire _ _ => 2

/-- Modelled from the spec: step (3) — execute and discard every queued
deferred call, in FIFO order. -/
def drainDeferred : List Event → List Dispatch
  | [] => []
  | e :: rest => Dispatch.deferredCall e :: drainDeferred rest

/-- Modelled from the spec: step (4) — fire every timer whose expiration has
passed, in table order; a repeating timer is rescheduled to
`next + period` (measured from the prior scheduled time) before its callback,
a single-shot timer is removed before its callback.  Returns the dispatch
trace and the surviving timer table. -/
def fireTimers (now : Nat) : List TimerReg → List Dispatch × List TimerReg
  | [] => ([], [])
  | t :: rest =>
    if t.next ≤ now then
      if t.singleShot then
        (Dispatch.timerFire t.id :: (fireTimers now rest).1, (fireTimers now rest).2)
      else
        (Dispatch.timerFire t.id :: (fireTimers now rest).1,
          TimerReg.mk t.id (t.next + t.period) t.period t.singleShot ::
            (fireTimers now rest).2)
    else ((fireTimers now rest).1, t :: (fireTimers now rest).2)

/-- Modelled from the spec: step (5) — dispatch the callback of every socket
with fired readiness bits, in table order. -/
def dispatchSockets (ready : List (Nat × Nat)) : List Dispatch :=
  ready.map fun p => Dispatch.socketFire p.1 p.2

/-- The per-iteration state one `exec` pass reads and writes: the pending
deferred queue and the timer table. -/
structure IterState where
  queue : List Event
  timers : List TimerReg
deriving DecidableEq

/-- Modelled from the spec: one full iteration of `EventLoop::exec` at time
`now` with poll readiness report `ready`: deferred calls drain completely,
then expired timers fire, then ready sockets dispatch; the deferred queue is
empty afterwards. -/
def execIteration (st : IterState) (now : Nat) (ready : List (Nat × Nat)) :
    List Dispatch × IterState :=
  (drainDeferred st.queue ++ (fireTimers now st.timers).1 ++ dispatchSockets ready,
    IterState.mk [] (fireTimers now st.timers).2)

/-! ### Trace lemmas -/

theorem drainDeferred_eq_map (q : List Event) :
    drainDeferred q = q.map Dispatch.deferredCall := by
  induction q with
  | nil => rfl
  | cons e rest ih => rw [drainDeferred, ih, List.map_cons]

theorem rank_of_mem_drain (q : List Event) (d : Dispatch)
    (h : d ∈ drainDeferred q) : d.kindRank = 0 := by
  rw [drainDeferred_eq_map] at h
  rcases List.mem_map.mp h with ⟨e, _, he⟩
  rw [← he]
  rfl

theorem fireTimers_trace_eq (now : Nat) (ts : List TimerReg) :
    (fireTimers now ts).1 =
      (ts.filter fun t => decide (t.next ≤ now)).map fun t => Dispatch.timerFire t.id := by
  induction ts with
  | nil => rfl
  | cons t rest ih =>
    by_cases ht : t.next ≤ now
    · by_cases hs : t.singleShot <;>
        simp [fireTimers, ht, hs, List.filter_cons, ih]
    · simp [fireTimers, ht, List.filter_cons, ih]

theorem rank_of_mem_fire (now : Nat) (ts : List TimerReg) (d : Dispatch)
    (h : d ∈ (fireTimers now ts).1) : d.kindRank = 1 := by
  rw [fireTimers_trace_eq] at h
  rcases List.mem_map.mp h with ⟨t, _, ht⟩
  rw [← ht]
  rfl

theorem rank_of_mem_sockets (ready : List (Nat × Nat)) (d : Dispatch)
    (h : d ∈ dispatchSockets ready) : d.kindRank = 2 := by
  rcases List.mem_map.mp h with ⟨p, _, hp⟩
  rw [← hp]
  rfl

theorem pairwise_rank_const (l : List Dispatch) (r : Nat)
    (h : ∀ d ∈ l, d.kindRank = r) :
    l.Pairwise fun a b => a.kindRank ≤ b.kindRank := by
  induction l with
  | nil => exact List.Pairwise.nil
  | cons d rest ih =>
    refine List.Pairwise.cons ?_ (ih fun x hx => h x (List.mem_cons_of_mem d hx))
    intro b hb
    rw [h d (List.mem_cons_self d rest), h b (List.mem_cons_of_mem d hb)]

theorem filter_rank_all (l : List Dispatch) (r k : Nat)
    (h : ∀ d ∈ l, d.kindRank = r) :
    l.filter (fun d => d.kindRank == k) = if r = k then l else [] := by
  induction l with
  | nil => simp
  | cons d rest ih =>
    have hd : d.kindRank = r := h d (List.mem_cons_self d rest)
    have ihr := ih fun x hx => h x (List.mem_cons_of_mem d hx)
    by_cases hrk : r = k
    · rw [if_pos hrk] at ihr ⊢
      rw [List.filter_cons, if_pos (by simp [hd, hrk]), ihr]
    · rw [if_neg hrk] at ihr ⊢
      rw [List.filter_cons, if_neg (by simp [hd, hrk]), ihr]

/-- C2: within one `exec` iteration the deferred-call queue is drained
completely — the deferred portion of the dispatch trace is exactly the whole
queue in FIFO order — before any timer callback fires, the timer portion is
exactly the expired timers, and every timer callback precedes every socket
callback: the trace is sorted by phase (deferred → timers → sockets), and
the queue is empty afterwards. -/
theorem exec_iteration_ordering (st : IterState) (now : Nat)
    (ready : List (Nat × Nat)) :
    (execIteration st now ready).1.filter (fun d => d.kindRank == 0) =
      st.queue.map Dispatch.deferredCall ∧
    (execIteration st now ready).1.filter (fun d => d.kindRank == 1) =
      (st.timers.filter fun t => decide (t.next ≤ now)).map
        (fun t => Dispatch.timerFire t.id) ∧
    (execIteration st now ready).1.Pairwise
      (fun a b => a.kindRank ≤ b.kindRank) ∧
    (execIteration st now ready).2.queue = [] := by
  have hdq := rank_of_mem_drain st.queue
  have hdt := rank_of_mem_fire now st.timers
  have hds := rank_of_mem_sockets ready
  refine ⟨?_, ?_, ?_, rfl⟩
  · show (drainDeferred st.queue ++ (fireTimers now st.timers).1 ++
        dispatchSockets ready).filter (fun d => d.kindRank == 0) = _
    rw [List.filter_append, List.filter_append]
    rw [filter_rank_all _ 0 0 hdq, filter_rank_all _ 1 0 hdt,
      filter_rank_all _ 2 0 hds]
    simp [drainDeferred_eq_map]
  · show (drainDeferred st.queue ++ (fireTimers now st.timers).1 ++
        dispatchSockets ready).filter (fun d => d.kindRank == 1) = _
    rw [List.filter_append, List.filter_append]
    rw [filter_rank_all _ 0 1 hdq, filter_rank_all _ 1 1 hdt,
      filter_rank_all _ 2 1 hds]
    simp [fireTimers_trace_eq]
  · show (drainDeferred st.queue ++ (fireTimers now st.timers).1 ++
        dispatchSockets ready).Pairwise (fun a b => a.kindRank ≤ b.kindRank)
    rw [List.pairwise_append]
    refine ⟨?_, ?_, ?_⟩
    · rw [List.pairwise_append]
      refine ⟨pairwise_rank_const _ 0 hdq, pairwise_rank_const _ 1 hdt, ?_⟩
      intro a ha b hb
      rw [hdq a ha, hdt b hb]
      omega
    · exact pairwise_rank_const _ 2 hds
    · intro a ha b hb
      rcases List.mem_append.mp ha with h1 | h1
      · rw [hdq a h1, hds b hb]
        omega
      · rw [hdt a h1, hds b hb]
        omega

/-! ## exec result codes (EventLoop.h line 182; spec sections 4.1 and 7)

The outer loop of `exec` is outside the visible source; it is modelled from
the spec over the sequence of per-iteration observations up to the
caller-supplied deadline. -/

/-- What one iteration observes: the poll primitive failed, quit was
requested (with the stored code), or the loop keeps going. -/
inductive IterOutcome where
  | pollFailed
  | quitRequested (code : Int)
  | keepGoing
deriving DecidableEq

/-- The value `exec` returns, by constructor. -/
inductive ExecResult where
  | success (code : Int)
  | generalError
  | timedOut
deriving DecidableEq

/-- The status word of each result (EventLoop.h line 182:
`Success = 0x100, GeneralError = 0x200, Timeout = 0x400`). -/
def ExecResult.statusWord : ExecResult → Nat
  | .success _ => 0x100
  | .generalError => 0x200
  | .timedOut => 0x400

/-- Modelled from the spec: the outer loop of `EventLoop::exec` — a poll
failure returns `GeneralError`; an observed quit returns `Success` carrying
the stored quit code; when the deadline elapses with no quit, `Timeout`. -/
def execLoop : List IterOutcome → ExecResult
  | [] => ExecResult.timedOut
  | IterOutcome.pollFailed :: _ => ExecResult.generalError
  | IterOutcome.quitRequested c :: _ => ExecResult.success c
  | IterOutcome.keepGoing :: rest => execLoop rest

/-- Modelled from the spec: `exec` must run on the owning thread; called from
any other thread it reports a non-fatal error and returns immediately with no
loop result. -/
def execEntry (ownerTid tid : Nat) (obs : List IterOutcome) : Option ExecResult :=
  if tid = ownerTid then some (execLoop obs) else none

theorem execLoop_timedOut_iff (obs : List IterOutcome) :
    execLoop obs = ExecResult.timedOut ↔ ∀ o ∈ obs, o = IterOutcome.keepGoing := by
  induction obs with
  | nil => simp [execLoop]
  | cons o rest ih =>
    cases o with
    | pollFailed => simp [execLoop]
    | quitRequested c => simp [execLoop]
    | keepGoing => simp [execLoop, ih]

theorem execLoop_generalError_iff (obs : List IterOutcome) :
    execLoop obs = ExecResult.generalError ↔
      obs.find? (fun o => !(o == IterOutcome.keepGoing)) =
        some IterOutcome.pollFailed := by
  induction obs with
  | nil => simp [execLoop]
  | cons o rest ih =>
    cases o with
    | pollFailed =>
      rw [List.find?_cons_of_pos _ (by decide)]
      simp [execLoop]
    | quitRequested c =>
      rw [List.find?_cons_of_pos _ (by simp)]
      simp [execLoop]
    | keepGoing =>
      rw [List.find?_cons_of_neg _ (by decide)]
      simpa [execLoop] using ih

theorem execLoop_success_iff (obs : List IterOutcome) (c : Int) :
    execLoop obs = ExecResult.success c ↔
      obs.find? (fun o => !(o == IterOutcome.keepGoing)) =
        some (IterOutcome.quitRequested c) := by
  induction obs with
  | nil => simp [execLoop]
  | cons o rest ih =>
    cases o with
    | pollFailed =>
      rw [List.find?_cons_of_pos _ (by decide)]
      simp [execLoop]
    | quitRequested c2 =>
      rw [List.find?_cons_of_pos _ (by simp)]
      simp [execLoop, ExecResult.success.injEq, IterOutcome.quitRequested.injEq,
        eq_comm]
    | keepGoing =>
      rw [List.find?_cons_of_neg _ (by decide)]
      simpa [execLoop] using ih

/-- C3: on its owning thread `exec` yields a result, and the result is
exactly one of `Success` (the first non-routine observation was a quit
request; the stored quit code accompanies it), `Timeout` (the deadline
elapsed, every iteration routine, no quit), or `GeneralError` (the first
non-routine observation was a poll failure); the three carry the distinct
status words 0x100, 0x400, 0x200. -/
theorem exec_result_trichotomy (ownerTid tid : Nat) (obs : List IterOutcome)
    (hown : tid = ownerTid) :
    execEntry ownerTid tid obs = some (execLoop obs) ∧
    (execLoop obs = ExecResult.timedOut ∨ execLoop obs = ExecResult.generalError ∨
      ∃ c, execLoop obs = ExecResult.success c) ∧
    (execLoop obs = ExecResult.timedOut ↔
      (ExecResult.statusWord (execLoop obs) = 0x400 ∧
        ∀ o ∈ obs, o = IterOutcome.keepGoing)) ∧
    (execLoop obs = ExecResult.generalError ↔
      (ExecResult.statusWord (execLoop obs) = 0x200 ∧
        obs.find? (fun o => !(o == IterOutcome.keepGoing)) =
          some IterOutcome.pollFailed)) ∧
    (∀ c, execLoop obs = ExecResult.success c ↔
      (ExecResult.statusWord (execLoop obs) = 0x100 ∧
        obs.find? (fun o => !(o == IterOutcome.keepGoing)) =
          some (IterOutcome.quitRequested c))) := by
  refine ⟨by simp [execEntry, hown], ?_, ?_, ?_, ?_⟩
  · cases h : execLoop obs with
    | success c => exact Or.inr (Or.inr ⟨c, rfl⟩)
    | generalError => exact Or.inr (Or.inl rfl)
    | timedOut => exact Or.inl rfl
  · constructor
    · intro h
      exact ⟨by rw [h]; rfl, (execLoop_timedOut_iff obs).mp h⟩
    · rintro ⟨_, h⟩
      exact (execLoop_timedOut_iff obs).mpr h
  · constructor
    · intro h
      exact ⟨by rw [h]; rfl, (execLoop_generalError_iff obs).mp h⟩
    · rintro ⟨_, h⟩
      exact (execLoop_generalError_iff obs).mpr h
  · intro c
    constructor
    · intro h
      exact ⟨by rw [h]; rfl, (execLoop_success_iff obs c).mp h⟩
    · rintro ⟨_, h⟩
      exact (execLoop_success_iff obs c).mpr h

/-- Concrete instance of `exec_result_trichotomy`: on the owning thread, two
routine iterations followed by `quit(7)` return `Success` carrying code 7. -/
theorem exec_result_trichotomy_witness :
    execEntry 3 3 [IterOutcome.keepGoing, IterOutcome.keepGoing,
      IterOutcome.quitRequested 7] = some (ExecResult.success 7) :=
  (exec_result_trichotomy 3 3 [IterOutcome.keepGoing, IterOutcome.keepGoing,
    IterOutcome.quitRequested 7] rfl).1

end Rct
